import Mathlib

/-!
# Verification of the nombra core (PDF-title pipeline)

Shallow embedding of the core of the `nombra` command-line tool.  Go strings
are modelled as `List Char`; byte-level length and slicing coincide with the
character-level model on the inputs considered.  Package-level configuration
variables (`maxContentLength`, `minContentLength`, `ocr`) become explicit
parameters of the corresponding functions.  Filesystem state (the set of
existing paths consulted through `os.Stat`) is modelled as a finite list of
occupied path names.
-/

/-- `maxFilenameLength = 120` from the source constants. -/
def maxFilenameLength : Nat := 120

/-- `truncationSuffix = "... [content truncated]"` from the source constants. -/
def truncationSuffix : List Char := "... [content truncated]".toList

/-- The fallback token returned by `sanitizeFilename` on empty results. -/
def fallbackName : List Char := "untitled-document".toList

/-- The character class of the source regex `sanitizeRegex`, namely
the characters matched by the class in the pattern. -/
def illegalChars : List Char := "<>:\"/\\|?*".toList

/-- Whether `c` is one of the characters removed by `sanitizeFilename`. -/
def isIllegalChar (c : Char) : Bool := illegalChars.contains c

/-- Go `unicode.IsSpace`: the white-space code points trimmed by
`strings.TrimSpace`. -/
def isGoSpace (c : Char) : Bool :=
  c == ' ' || c == '\t' || c == '\n' || c == '\x0b' || c == '\x0c' || c == '\r' ||
  c == '\x85' || c == '\xa0' || c == '\u1680' ||
  (0x2000 ≤ c.toNat && c.toNat ≤ 0x200a) ||
  c == '\u2028' || c == '\u2029' || c == '\u202f' || c == '\u205f' || c == '\u3000'

/-- The character class matched by `\s` in Go regular expressions
(`[\t\n\f\r ]`). -/
def isRegexSpace (c : Char) : Bool :=
  c == '\t' || c == '\n' || c == '\x0c' || c == '\r' || c == ' '

/-- Drop the trailing run of characters satisfying `p`. -/
def trimEndIf (p : Char → Bool) (l : List Char) : List Char :=
  (l.reverse.dropWhile p).reverse

/-- Drop the leading and trailing runs of characters satisfying `p`
(the common shape of `strings.Trim` and `strings.TrimSpace`). -/
def trimIf (p : Char → Bool) (l : List Char) : List Char :=
  trimEndIf p (l.dropWhile p)

/-- Go `strings.TrimSpace`. -/
def trimSpace (l : List Char) : List Char := trimIf isGoSpace l

/-- Go `strings.Trim` with an explicit cutset. -/
def trimCutset (cutset : List Char) (l : List Char) : List Char :=
  trimIf (fun c => cutset.contains c) l

/-- The removal step of `sanitizeFilename`: `reg.ReplaceAllString(title, "")`
with the character class `sanitizeRegex` deletes exactly the characters of
the class. -/
def removeIllegal (title : List Char) : List Char :=
  title.filter (fun c => !isIllegalChar c)

/-- The length cap of `sanitizeFilename`:
`if len(clean) > maxFilenameLength { clean = clean[:maxFilenameLength] }`. -/
def capLength (l : List Char) : List Char :=
  if maxFilenameLength < l.length then l.take maxFilenameLength else l

/-- `sanitizeFilename` from the source: remove the characters matched by
`sanitizeRegex`, trim white space, cap at `maxFilenameLength`, and fall back
to `"untitled-document"` when the result is empty. -/
def sanitizeFilename (title : List Char) : List Char :=
  let clean := trimSpace (removeIllegal title)
  let clean := capLength clean
  if clean = [] then fallbackName else clean

theorem mem_of_mem_trimIf {p : Char → Bool} {c : Char} {l : List Char}
    (h : c ∈ trimIf p l) : c ∈ l := by
  unfold trimIf trimEndIf at h
  rw [List.mem_reverse] at h
  have h1 := List.dropWhile_subset p h
  rw [List.mem_reverse] at h1
  exact List.dropWhile_subset p h1

theorem mem_of_mem_capLength {c : Char} {l : List Char}
    (h : c ∈ capLength l) : c ∈ l := by
  unfold capLength at h
  split at h
  · exact List.mem_of_mem_take h
  · exact h

theorem capLength_length_le (l : List Char) :
    (capLength l).length ≤ maxFilenameLength := by
  unfold capLength
  split
  · simp
  · omega

theorem fallbackName_no_illegal :
    fallbackName.all (fun c => !isIllegalChar c) = true := by decide

theorem sanitizeFilename_no_illegal (title : List Char) :
    ∀ c ∈ sanitizeFilename title, isIllegalChar c = false := by
  intro c hc
  unfold sanitizeFilename at hc
  simp only at hc
  split at hc
  · have := List.all_eq_true.mp fallbackName_no_illegal c hc
    simpa using this
  · have h1 := mem_of_mem_capLength hc
    have h2 := mem_of_mem_trimIf h1
    have h3 := List.of_mem_filter h2
    simpa using h3

theorem sanitizeFilename_length_le (title : List Char) :
    (sanitizeFilename title).length ≤ maxFilenameLength := by
  unfold sanitizeFilename
  simp only
  split
  · decide
  · exact capLength_length_le _

theorem sanitizeFilename_ne_nil (title : List Char) :
    sanitizeFilename title ≠ [] := by
  unfold sanitizeFilename
  simp only
  split
  · decide
  · assumption

theorem sanitizeFilename_fallback (title : List Char)
    (h : trimSpace (removeIllegal title) = []) :
    sanitizeFilename title = fallbackName := by
  unfold sanitizeFilename
  simp only [h]
  rfl

/-- C1: `sanitizeFilename` returns a string with no character from the
illegal set, of length at most the configured maximum filename length, and
never empty; when removal, trimming and capping would yield the empty string
it returns the fixed fallback token. -/
theorem sanitizeFilename_contract (title : List Char) :
    (∀ c ∈ sanitizeFilename title, isIllegalChar c = false) ∧
    (sanitizeFilename title).length ≤ maxFilenameLength ∧
    sanitizeFilename title ≠ [] ∧
    (trimSpace (removeIllegal title) = [] →
      sanitizeFilename title = fallbackName) :=
  ⟨sanitizeFilename_no_illegal title, sanitizeFilename_length_le title,
   sanitizeFilename_ne_nil title, sanitizeFilename_fallback title⟩

/-- `truncateContent` from the source, with the package variable
`maxContentLength` as an explicit parameter.  Keeps the leading and trailing
`(maxContentLength - len(truncationSuffix)) / 2` characters around the
suffix marker, or degrades to the leading `maxContentLength` characters when
the budget is too small. -/
def truncateContent (maxContentLength : Nat) (content : List Char) : List Char :=
  if content.length ≤ maxContentLength then content
  else
    let minKeep := 1
    let available := maxContentLength - truncationSuffix.length
    if available < 2 * minKeep then content.take maxContentLength
    else
      let keep := available / 2
      content.take keep ++ truncationSuffix ++
        content.drop (content.length - keep)

/-- The number of occurrences of `pat` as a contiguous substring of `l`
(the count of start positions where `pat` is a prefix of the rest). -/
def countOcc (pat l : List Char) : Nat :=
  (List.range (l.length + 1)).countP (fun i => pat.isPrefixOf (l.drop i))

theorem truncationSuffix_length : truncationSuffix.length = 23 := by decide

theorem one_le_countOcc (pat a b : List Char) :
    1 ≤ countOcc pat (a ++ pat ++ b) := by
  have hmem : a.length ∈ List.range ((a ++ pat ++ b).length + 1) := by
    rw [List.mem_range]
    simp only [List.length_append]
    omega
  have hpre : pat.isPrefixOf ((a ++ pat ++ b).drop a.length) = true := by
    rw [List.append_assoc, List.drop_left]
    exact List.isPrefixOf_iff_prefix.mpr (List.prefix_append pat b)
  unfold countOcc
  have hpos :
      0 < (List.range ((a ++ pat ++ b).length + 1)).countP
        (fun i => pat.isPrefixOf ((a ++ pat ++ b).drop i)) :=
    List.countP_pos_iff.mpr ⟨a.length, hmem, hpre⟩
  omega

/-- C2 (amended): for over-length content with a workable budget,
`truncateContent` returns `head ++ suffix ++ tail` with `head` the first
`budget/2` characters and `tail` the last `budget/2` characters; the output
contains the suffix marker at least once, its length is bounded by the
configured maximum and equals it when the budget splits evenly. -/
theorem truncateContent_spec (maxContentLength : Nat) (content : List Char)
    (hlong : maxContentLength < content.length)
    (hbudget : 2 ≤ maxContentLength - truncationSuffix.length) :
    truncateContent maxContentLength content =
      content.take ((maxContentLength - truncationSuffix.length) / 2) ++ truncationSuffix ++
        content.drop (content.length - (maxContentLength - truncationSuffix.length) / 2) ∧
    1 ≤ countOcc truncationSuffix (truncateContent maxContentLength content) ∧
    (truncateContent maxContentLength content).length ≤ maxContentLength ∧
    ((maxContentLength - truncationSuffix.length) % 2 = 0 →
      (truncateContent maxContentLength content).length = maxContentLength) := by
  have hsuffix := truncationSuffix_length
  have heq : truncateContent maxContentLength content =
      content.take ((maxContentLength - truncationSuffix.length) / 2) ++ truncationSuffix ++
        content.drop (content.length - (maxContentLength - truncationSuffix.length) / 2) := by
    simp only [truncateContent]
    rw [if_neg (by omega), if_neg (by omega)]
  refine ⟨heq, ?_, ?_, ?_⟩
  · rw [heq]; exact one_le_countOcc _ _ _
  · rw [heq]
    simp only [List.length_append, List.length_take, List.length_drop]
    omega
  · intro hev
    rw [heq]
    simp only [List.length_append, List.length_take, List.length_drop]
    omega

/-- C2 (counterexample): a content string that itself starts with the
truncation suffix is longer than the configured maximum `69`, the budget
allows one character from each end, yet the truncated output contains the
suffix marker twice, not exactly once. -/
theorem truncateContent_suffix_twice :
    (truncationSuffix ++ List.replicate 47 'a').length > 69 ∧
    2 ≤ 69 - truncationSuffix.length ∧
    countOcc truncationSuffix
      (truncateContent 69 (truncationSuffix ++ List.replicate 47 'a')) = 2 := by
  decide

/-- Witness for `truncateContent_spec` at the configured maximum `25` and a
`26`-character input. -/
theorem truncateContent_spec_witness :
    truncateContent 25 (List.replicate 26 'b') =
      (List.replicate 26 'b').take ((25 - truncationSuffix.length) / 2) ++ truncationSuffix ++
        (List.replicate 26 'b').drop ((List.replicate 26 'b').length - (25 - truncationSuffix.length) / 2) ∧
    1 ≤ countOcc truncationSuffix (truncateContent 25 (List.replicate 26 'b')) ∧
    (truncateContent 25 (List.replicate 26 'b')).length ≤ 25 ∧
    ((25 - truncationSuffix.length) % 2 = 0 →
      (truncateContent 25 (List.replicate 26 'b')).length = 25) :=
  truncateContent_spec 25 (List.replicate 26 'b') (by decide) (by decide)

/-- C3: `truncateContent` is the identity on content no longer than the
configured maximum. -/
theorem truncateContent_identity (maxContentLength : Nat) (content : List Char)
    (h : content.length ≤ maxContentLength) :
    truncateContent maxContentLength content = content := by
  simp only [truncateContent]
  rw [if_pos h]

/-- Witness for `truncateContent_identity` on a short concrete string. -/
theorem truncateContent_identity_witness :
    truncateContent 3000 "abc".toList = "abc".toList :=
  truncateContent_identity 3000 "abc".toList (by decide)

/-- C4: when the content is over-length but the budget cannot keep one
character from each end, `truncateContent` degrades to the leading
`maxContentLength` characters. -/
theorem truncateContent_degraded (maxContentLength : Nat) (content : List Char)
    (hlong : maxContentLength < content.length)
    (hsmall : maxContentLength - truncationSuffix.length < 2) :
    truncateContent maxContentLength content = content.take maxContentLength := by
  simp only [truncateContent]
  rw [if_neg (by omega), if_pos (by omega)]

/-- Witness for `truncateContent_degraded` at the configured maximum `10`. -/
theorem truncateContent_degraded_witness :
    truncateContent 10 (List.replicate 11 'a') = (List.replicate 11 'a').take 10 :=
  truncateContent_degraded 10 (List.replicate 11 'a') (by decide) (by decide)

def isAsciiLower (c : Char) : Bool := 'a' ≤ c && c ≤ 'z'

def isAsciiUpper (c : Char) : Bool := 'A' ≤ c && c ≤ 'Z'

/-- The replacement pass of the source regex that rewrites a lower-case
letter immediately followed by an upper-case letter to the same two letters
separated by one space; matches are two characters wide and scanning
resumes after each match. -/
def insertCamelSpaces : List Char → List Char
  | [] => []
  | [c] => [c]
  | a :: b :: rest =>
    if isAsciiLower a && isAsciiUpper b then a :: ' ' :: b :: insertCamelSpaces rest
    else a :: insertCamelSpaces (b :: rest)

/-- The replacement pass of the source regex mapping each maximal run of
`\s` characters to a single space; the flag records whether the previous
character belonged to the current run. -/
def collapseSpacesAux : Bool → List Char → List Char
  | _, [] => []
  | prevSpace, c :: rest =>
    if isRegexSpace c then
      if prevSpace then collapseSpacesAux true rest
      else ' ' :: collapseSpacesAux true rest
    else c :: collapseSpacesAux false rest

def collapseSpaces (l : List Char) : List Char := collapseSpacesAux false l

/-- The replacement pass of the source regex rewriting every `\s*-\s*`
match to a single space on each side of the dash.  `pending` buffers a run
of white space that may become the leading `\s*` of a match; `afterDash`
records that the trailing `\s*` of a just-replaced match is being
consumed. -/
def spaceDashesAux (pending : List Char) (afterDash : Bool) : List Char → List Char
  | [] => if afterDash then [] else pending.reverse
  | c :: rest =>
    if isRegexSpace c then
      if afterDash then spaceDashesAux pending true rest
      else spaceDashesAux (c :: pending) false rest
    else if c = '-' then ' ' :: '-' :: ' ' :: spaceDashesAux [] true rest
    else (if afterDash then [] else pending.reverse) ++ c :: spaceDashesAux [] false rest

def spaceDashes (l : List Char) : List Char := spaceDashesAux [] false l

/-- The cutset of the source `strings.Trim(title, "...")` call: straight
double quote, straight single quote, space, tab and newline. -/
def quoteCutset : List Char := ['"', '\'', ' ', '\t', '\n']

/-- `strings.ReplaceAll(title, "\n", " ")`. -/
def replaceNewlines (l : List Char) : List Char :=
  l.map (fun c => if c = '\n' then ' ' else c)

/-- `cleanTitle` from the source: trim quotes and surrounding white space,
fold newlines to spaces, split camel-case boundaries, collapse white-space
runs, normalise spacing around dashes, and trim once more. -/
def cleanTitle (title : List Char) : List Char :=
  let t := trimCutset quoteCutset title
  let t := replaceNewlines t
  let t := insertCamelSpaces t
  let t := collapseSpaces t
  let t := spaceDashes t
  trimSpace t

/-- C5 (counterexample): `cleanTitle` is not idempotent on every input.
On the three-character input `a`, `"`, carriage return, the first pass
turns the carriage return into a trailing space, trims it, and leaves a
trailing straight quote, which the second pass then trims away. -/
theorem cleanTitle_not_idempotent :
    cleanTitle (cleanTitle ['a', '"', '\r']) ≠ cleanTitle ['a', '"', '\r'] := by
  decide

/-- C5 (amended): `cleanTitle` is idempotent on already-clean input — for
every title that `cleanTitle` leaves unchanged, applying it twice yields
the same result as applying it once. -/
theorem cleanTitle_idempotent_on_clean (title : List Char)
    (h : cleanTitle title = title) :
    cleanTitle (cleanTitle title) = cleanTitle title := by
  rw [h]
  exact h

/-- Witness for `cleanTitle_idempotent_on_clean` on a concrete clean
title. -/
theorem cleanTitle_idempotent_on_clean_witness :
    cleanTitle (cleanTitle "2024.05.07 - Sublease Agreement - John Doe - Jane Smith".toList) =
      cleanTitle "2024.05.07 - Sublease Agreement - John Doe - Jane Smith".toList :=
  cleanTitle_idempotent_on_clean
    "2024.05.07 - Sublease Agreement - John Doe - Jane Smith".toList (by decide)

/-- `filepath.Join(dir, name)`, modelled as inserting a single separator;
the path-cleaning step of `Join` is the identity on the separator-free
components considered here. -/
def joinPath (dir name : List Char) : List Char := dir ++ '/' :: name

/-- The candidate path produced inside `generateUniqueName`:
`fmt.Sprintf(filepath.Join(dir, baseName+"-%d"+ext), counter)`. -/
def candidateName (dir base ext : List Char) (counter : Nat) : List Char :=
  joinPath dir (base ++ '-' :: (Nat.repr counter).toList ++ ext)

/-- `generateUniqueName` from the source: the unbounded counter loop,
starting at `1`, returning the first candidate not present among the
occupied paths.  The hypothesis records exactly the condition under which
the Go loop terminates; `Nat.find` returns the smallest such counter, which
is the one the loop reaches first. -/
def generateUniqueName (dir base ext : List Char) (occupied : List (List Char))
    (h : ∃ n, 0 < n ∧ candidateName dir base ext n ∉ occupied) : List Char :=
  candidateName dir base ext (Nat.find h)

/-- The collision-handling step of `safeRenameFile`: take the candidate
`dir/base+ext`; if a file exists there (`os.Stat` succeeds), defer to
`generateUniqueName`, else keep the candidate.  The desired base name is
the parameter `base`. -/
def resolveUniquePath (dir base ext : List Char) (occupied : List (List Char))
    (h : ∃ n, 0 < n ∧ candidateName dir base ext n ∉ occupied) : List Char :=
  if joinPath dir (base ++ ext) ∈ occupied
  then generateUniqueName dir base ext occupied h
  else joinPath dir (base ++ ext)

/-- A concrete occupancy with `d/Report.pdf` and `d/Report-1.pdf` taken. -/
def exampleOccupied : List (List Char) :=
  ["d/Report.pdf".toList, "d/Report-1.pdf".toList]

theorem exampleOccupied_h :
    ∃ n, 0 < n ∧
      candidateName "d".toList "Report".toList ".pdf".toList n ∉ exampleOccupied :=
  ⟨2, by decide⟩

/-- C6: the resolver returns the plain candidate when it is free, and
otherwise the candidate with the smallest counter `n ≥ 1` whose path is
unoccupied; the returned path never names an occupied path. -/
theorem resolveUniquePath_spec (dir base ext : List Char) (occupied : List (List Char))
    (h : ∃ n, 0 < n ∧ candidateName dir base ext n ∉ occupied) :
    resolveUniquePath dir base ext occupied h ∉ occupied ∧
    (joinPath dir (base ++ ext) ∉ occupied →
      resolveUniquePath dir base ext occupied h = joinPath dir (base ++ ext)) ∧
    (joinPath dir (base ++ ext) ∈ occupied →
      ∃ n, 0 < n ∧
        resolveUniquePath dir base ext occupied h = candidateName dir base ext n ∧
        candidateName dir base ext n ∉ occupied ∧
        ∀ m, 0 < m → m < n → candidateName dir base ext m ∈ occupied) := by
  by_cases hocc : joinPath dir (base ++ ext) ∈ occupied
  · have hres : resolveUniquePath dir base ext occupied h =
        candidateName dir base ext (Nat.find h) := by
      unfold resolveUniquePath generateUniqueName
      rw [if_pos hocc]
    have hspec := Nat.find_spec h
    refine ⟨?_, fun hc => absurd hocc hc, fun _ => ⟨Nat.find h, hspec.1, hres, hspec.2, ?_⟩⟩
    · rw [hres]; exact hspec.2
    · intro m hm hlt
      by_contra hfree
      exact Nat.find_min h hlt ⟨hm, hfree⟩
  · have hres : resolveUniquePath dir base ext occupied h = joinPath dir (base ++ ext) := by
      unfold resolveUniquePath
      rw [if_neg hocc]
    exact ⟨hres ▸ hocc, fun _ => hres, fun hc => absurd hc hocc⟩

/-- Witness for `resolveUniquePath_spec` on the concrete occupancy where
`d/Report.pdf` and `d/Report-1.pdf` exist. -/
theorem resolveUniquePath_spec_witness :
    resolveUniquePath "d".toList "Report".toList ".pdf".toList
        exampleOccupied exampleOccupied_h ∉ exampleOccupied ∧
    (joinPath "d".toList ("Report".toList ++ ".pdf".toList) ∉ exampleOccupied →
      resolveUniquePath "d".toList "Report".toList ".pdf".toList
          exampleOccupied exampleOccupied_h =
        joinPath "d".toList ("Report".toList ++ ".pdf".toList)) ∧
    (joinPath "d".toList ("Report".toList ++ ".pdf".toList) ∈ exampleOccupied →
      ∃ n, 0 < n ∧
        resolveUniquePath "d".toList "Report".toList ".pdf".toList
            exampleOccupied exampleOccupied_h =
          candidateName "d".toList "Report".toList ".pdf".toList n ∧
        candidateName "d".toList "Report".toList ".pdf".toList n ∉ exampleOccupied ∧
        ∀ m, 0 < m → m < n →
          candidateName "d".toList "Report".toList ".pdf".toList m ∈ exampleOccupied) :=
  resolveUniquePath_spec "d".toList "Report".toList ".pdf".toList
    exampleOccupied exampleOccupied_h

/-- `validateContentLength` from the source, with the package variable
`minContentLength` as an explicit parameter: `some` error when the trimmed
length is below the minimum, `none` otherwise. -/
def validateContentLength (minContentLength : Nat) (content : List Char) :
    Option (List Char) :=
  let trimmedLength := (trimSpace content).length
  if trimmedLength < minContentLength then
    some ("extracted content length (".toList ++ (Nat.repr trimmedLength).toList ++
      ") is below minimum required length (".toList ++
      (Nat.repr minContentLength).toList ++ ")".toList)
  else none

/-- The strategy loop of `extractPDFContent`: attempt each extractor result
in order; an error or a too-short text records the error and moves on;
empty text moves on without touching the recorded error; after the list is
exhausted, fail with the aggregate message. -/
def tryExtractors (minContentLength : Nat) :
    List (Except (List Char) (List Char)) → Option (List Char) →
      Except (List Char) (List Char)
  | [], some e =>
      Except.error ("all text extraction methods failed: ".toList ++ e)
  | [], none =>
      Except.error "no text could be extracted from the PDF".toList
  | r :: rest, lastErr =>
      match r with
      | Except.error e => tryExtractors minContentLength rest (some e)
      | Except.ok t =>
        if t ≠ [] then
          match validateContentLength minContentLength t with
          | some e => tryExtractors minContentLength rest (some e)
          | none => Except.ok t
        else tryExtractors minContentLength rest lastErr

/-- `extractPDFContent` from the source, parameterised by the `ocr` flag,
the configured minimum length, and the results of the standard and OCR
extraction strategies: forced OCR validates and returns the OCR result;
otherwise the strategies are attempted in order standard, OCR. -/
def extractPDFContent (ocrForced : Bool) (minContentLength : Nat)
    (stdResult ocrResult : Except (List Char) (List Char)) :
    Except (List Char) (List Char) :=
  if ocrForced then
    match ocrResult with
    | Except.error e => Except.error e
    | Except.ok t =>
      match validateContentLength minContentLength t with
      | some e => Except.error e
      | none => Except.ok t
  else tryExtractors minContentLength [stdResult, ocrResult] none

/-- C7: when OCR is not forced, the standard strategy errors, and the OCR
strategy returns non-empty text whose trimmed length meets the configured
minimum, the orchestrator returns the OCR text successfully; the standard
error is not surfaced as fatal. -/
theorem extractPDFContent_ocr_fallback (minContentLength : Nat) (e t : List Char)
    (ht : t ≠ []) (hlen : minContentLength ≤ (trimSpace t).length) :
    extractPDFContent false minContentLength (Except.error e) (Except.ok t) =
      Except.ok t := by
  simp only [extractPDFContent, Bool.false_eq_true, if_false, tryExtractors,
    validateContentLength, if_pos ht, Nat.not_lt.mpr hlen, if_false]

/-- Witness for `extractPDFContent_ocr_fallback` with the default minimum
length `10` and a concrete OCR text. -/
theorem extractPDFContent_ocr_fallback_witness :
    extractPDFContent false 10 (Except.error "failed to open PDF".toList)
        (Except.ok "Invoice from ACME Corp".toList) =
      Except.ok "Invoice from ACME Corp".toList :=
  extractPDFContent_ocr_fallback 10 "failed to open PDF".toList
    "Invoice from ACME Corp".toList (by decide) (by decide)

/-- The page loop of `extractTextFromPDF`: each entry is a page, `none` for
a null page (skipped), `some` for the result of `GetPlainText`; a page
error aborts with the wrapping message, otherwise the trimmed page texts
are concatenated in order.  `i` is the 1-based page number. -/
def collectPages :
    Nat → List (Option (Except (List Char) (List Char))) →
      Except (List Char) (List Char)
  | _, [] => Except.ok []
  | i, none :: rest => collectPages (i + 1) rest
  | i, some (Except.error e) :: _ =>
      Except.error ("page ".toList ++ (Nat.repr i).toList ++
        " text extraction failed: ".toList ++ e)
  | i, some (Except.ok t) :: rest =>
      match collectPages (i + 1) rest with
      | Except.error e => Except.error e
      | Except.ok c => Except.ok (trimSpace t ++ c)

/-- `extractTextFromPDF` from the source, over the per-page extraction
results: empty documents and empty concatenations fail, and concatenated
text longer than 500 characters containing no space character is rejected
as garbled. -/
def extractTextFromPDF (pages : List (Option (Except (List Char) (List Char)))) :
    Except (List Char) (List Char) :=
  if pages.length = 0 then Except.error "PDF appears to be empty".toList
  else
    match collectPages 1 pages with
    | Except.error e => Except.error e
    | Except.ok content =>
      if content.length = 0 then
        Except.error "no extractable text found in PDF".toList
      else if 500 < content.length ∧ ' ' ∉ content then
        Except.error "text extraction failed: no spaces found in extracted text".toList
      else Except.ok content

/-- C8: if the concatenated standard-extraction text is longer than 500
characters and contains no white-space character at all, standard
extraction reports the garbled-extraction failure instead of returning the
text. -/
theorem extractTextFromPDF_garbled
    (pages : List (Option (Except (List Char) (List Char)))) (content : List Char)
    (hc : collectPages 1 pages = Except.ok content)
    (hlen : 500 < content.length)
    (hws : ∀ c ∈ content, isGoSpace c = false) :
    extractTextFromPDF pages =
      Except.error "text extraction failed: no spaces found in extracted text".toList := by
  have hne : pages ≠ [] := by
    intro hnil
    rw [hnil] at hc
    simp only [collectPages] at hc
    cases hc
    simp at hlen
  have hnospace : ' ' ∉ content := by
    intro hmem
    have := hws ' ' hmem
    simp [isGoSpace] at this
  unfold extractTextFromPDF
  rw [if_neg (by simpa using hne), hc]
  dsimp only
  rw [if_neg (by omega), if_pos ⟨hlen, hnospace⟩]

set_option maxRecDepth 8000 in
/-- Witness for `extractTextFromPDF_garbled` on a single page of 501
letters with no spaces. -/
theorem extractTextFromPDF_garbled_witness :
    extractTextFromPDF [some (Except.ok (List.replicate 501 'x'))] =
      Except.error "text extraction failed: no spaces found in extracted text".toList :=
  extractTextFromPDF_garbled [some (Except.ok (List.replicate 501 'x'))]
    (List.replicate 501 'x') rfl (by decide) (by decide)

/-- `extractTextViaOCR` from the source, over the per-page `tesseract`
outputs: each page contributes its recognised text followed by a newline;
zero converted pages and an empty concatenation fail. -/
def extractTextViaOCR (ocrPages : List (List Char)) :
    Except (List Char) (List Char) :=
  if ocrPages.length = 0 then Except.error "no pages converted from PDF".toList
  else
    let content := (ocrPages.map (fun p => p ++ ['\n'])).flatten
    if content.length = 0 then Except.error "OCR extracted no text".toList
    else Except.ok content

theorem tryExtractors_ok_valid (minContentLength : Nat) :
    ∀ (results : List (Except (List Char) (List Char)))
      (lastErr : Option (List Char)) (t : List Char),
      tryExtractors minContentLength results lastErr = Except.ok t →
      validateContentLength minContentLength t = none := by
  intro results
  induction results with
  | nil =>
    intro lastErr t h
    cases lastErr <;> simp [tryExtractors] at h
  | cons r rest ih =>
    intro lastErr t h
    simp only [tryExtractors] at h
    split at h
    · exact ih _ t h
    · rename_i t0
      by_cases ht0 : t0 ≠ []
      · rw [if_pos ht0] at h
        split at h
        · exact ih _ t h
        · cases h
          assumption
      · rw [if_neg ht0] at h
        exact ih lastErr t h

/-- C9 (counterexample): with forced OCR, a configured minimum content
length of `0`, and an OCR run whose single page recognises the empty
string, the orchestrator reports success with the string `"\n"`, which
consists only of white space. -/
theorem extractPDFContent_whitespace_success :
    extractPDFContent true 0 (Except.error []) (extractTextViaOCR [[]]) =
      Except.ok ['\n'] ∧
    trimSpace ['\n'] = [] ∧ (['\n'] : List Char) ≠ [] :=
  ⟨rfl, by decide, by decide⟩

/-- C9 (amended): whenever the orchestrator reports success and the
configured minimum content length is positive, the returned content does
not consist only of white space. -/
theorem extractPDFContent_min_length (ocrForced : Bool) (minContentLength : Nat)
    (stdResult ocrResult : Except (List Char) (List Char)) (t : List Char)
    (hok : extractPDFContent ocrForced minContentLength stdResult ocrResult =
      Except.ok t)
    (hmin : 0 < minContentLength) :
    trimSpace t ≠ [] := by
  have hval : validateContentLength minContentLength t = none := by
    cases ocrForced with
    | false =>
      exact tryExtractors_ok_valid minContentLength [stdResult, ocrResult] none t
        (by simpa [extractPDFContent] using hok)
    | true =>
      unfold extractPDFContent at hok
      rw [if_pos rfl] at hok
      split at hok
      · cases hok
      · split at hok
        · cases hok
        · cases hok
          assumption
  simp only [validateContentLength] at hval
  split at hval
  · cases hval
  · rename_i hge
    intro hnil
    rw [hnil] at hge
    simp at hge
    omega

/-- Witness for `extractPDFContent_min_length` with the default minimum
`10` and a successful standard extraction. -/
theorem extractPDFContent_min_length_witness :
    trimSpace "hello world".toList ≠ [] :=
  extractPDFContent_min_length false 10 (Except.ok "hello world".toList)
    (Except.error []) "hello world".toList rfl (by decide)

/-- The base-filename computation of `safeRenameFile`: append the original
extension to the sanitized title and, when the result exceeds
`maxFilenameLength`, cut it down to `baseName[:maxFilenameLength-len(ext)]`
followed by the extension again. -/
def safeRenameBaseName (title ext : List Char) : List Char :=
  let clean := sanitizeFilename title
  let baseName := clean ++ ext
  if maxFilenameLength < baseName.length
  then baseName.take (maxFilenameLength - ext.length) ++ ext
  else baseName

/-- C10: for every title and extension of at most `maxFilenameLength`
characters, the base filename computed by `safeRenameFile` is at most
`maxFilenameLength` characters long and ends with the extension, and the
slice index `maxFilenameLength - len(ext)` used by the cap is in range for
the sliced string. -/
theorem safeRenameBaseName_spec (title ext : List Char)
    (hext : ext.length ≤ maxFilenameLength) :
    (safeRenameBaseName title ext).length ≤ maxFilenameLength ∧
    ext <:+ safeRenameBaseName title ext ∧
    (maxFilenameLength < (sanitizeFilename title ++ ext).length →
      maxFilenameLength - ext.length ≤ (sanitizeFilename title ++ ext).length) := by
  simp only [safeRenameBaseName]
  split
  · rename_i hlong
    refine ⟨?_, List.suffix_append _ _, fun _ => by omega⟩
    simp only [List.length_append, List.length_take]
    simp only [List.length_append] at hlong
    omega
  · rename_i hshort
    exact ⟨by omega, List.suffix_append _ _, fun hlong2 => absurd hlong2 hshort⟩

/-- Witness for `safeRenameBaseName_spec` on a concrete title and the
extension `.pdf`. -/
theorem safeRenameBaseName_spec_witness :
    (safeRenameBaseName "My Report".toList ".pdf".toList).length ≤ maxFilenameLength ∧
    ".pdf".toList <:+ safeRenameBaseName "My Report".toList ".pdf".toList ∧
    (maxFilenameLength < (sanitizeFilename "My Report".toList ++ ".pdf".toList).length →
      maxFilenameLength - ".pdf".toList.length ≤
        (sanitizeFilename "My Report".toList ++ ".pdf".toList).length) :=
  safeRenameBaseName_spec "My Report".toList ".pdf".toList (by decide)
